import Mathlib

/-!
Shallow embedding of `src/python/coral_realistic_growth.py` (the growth
automaton core of the naturamorph repository) together with proofs of the
specified properties.

Modelling conventions:
* Grid coordinates are integers `(x, y)`; the occupancy grid
  (`grid = np.zeros((grid_size, grid_size))`, written only with the value 1)
  is modelled as the finite set `occ` of occupied coordinates.
* The NumPy generator `np.random.default_rng(seed)` is modelled as an oracle
  `Rng` holding an integer stream (for `rng.integers` and the index returned
  by `rng.choice`) and a uniform stream of rationals in `[0,1)` (for
  `rng.random()`).  Counters `ki`/`kr` in the state record how many draws of
  each kind have been consumed, mirroring the sequential consumption of the
  single generator.
* `rng.choice(len(candidates), p=p)` is modelled as the oracle-supplied index
  reduced mod `len(candidates)`: every index has positive softmax probability
  (each weight is `exp(...) > 0`, proved below), so the set of behaviours of
  the model is exactly the support of the code's distribution.  The softmax
  computation itself (`lines 97-100`) is embedded separately over `ℝ`.
* `int(grid_size * 0.85)` on a natural `grid_size` is embedded as
  `17 * grid_size / 20` in natural-number (floor) division.
-/

namespace NaturaMorph

/-- Configuration record: the keyword parameters of `coral_realistic_growth`,
with the Python default values. -/
structure Config where
  nSteps : ℤ := 15000
  gridSize : ℕ := 1001
  seed : ℤ := 42
  lightDir : ℚ × ℚ := (0, -1)
  flowDir : ℚ × ℚ := (1/2, 0)
  lightWeight : ℚ := 1/2
  flowWeight : ℚ := 1/5
  lateralWeight : ℚ := 2/5
  noiseWeight : ℚ := 3/10
  branchRate : ℚ := 1/10
  deathRate : ℚ := 1/500
  minDist : ℤ := 2
  crowdingMax : ℤ := 4
  temperature : ℚ := 2
  maxTips : ℤ := 5000

/-- Oracle model of the seeded generator: `ints k` backs the `k`-th integer
draw, `reals k` the `k`-th `rng.random()` draw. -/
structure Rng where
  ints : ℕ → ℕ
  reals : ℕ → ℚ

/-- `rng.random()` returns values in `[0, 1)`. -/
def RngValid (rng : Rng) : Prop := ∀ k, 0 ≤ rng.reals k ∧ rng.reals k < 1

/-- Mutable state of the growth loop: occupancy set, tip list, history,
and the two draw counters. -/
structure GrowState where
  occ : Finset (ℤ × ℤ)
  tips : List (ℤ × ℤ)
  history : List (ℤ × ℤ)
  ki : ℕ
  kr : ℕ

/-- `moves = [(1,0),(-1,0),(0,1),(0,-1),(1,1),(1,-1),(-1,1),(-1,-1)]`
(line 41). -/
def moves : List (ℤ × ℤ) :=
  [(1,0), (-1,0), (0,1), (0,-1), (1,1), (1,-1), (-1,1), (-1,-1)]

/-- `in_bounds` (lines 43-44):
`min_dist < x < grid_size-min_dist and min_dist < y < grid_size-min_dist`. -/
def in_bounds (cfg : Config) (x y : ℤ) : Bool :=
  decide (cfg.minDist < x) && decide (x < (cfg.gridSize : ℤ) - cfg.minDist) &&
  decide (cfg.minDist < y) && decide (y < (cfg.gridSize : ℤ) - cfg.minDist)

/-- The block sum `grid[ny-d:ny+d+1, nx-d:nx+d+1].sum()` (lines 51-53):
number of occupied cells in the square window of radius `d` around `(x,y)`.
Occupied cells always lie inside the grid, so no slice clipping occurs. -/
def neighborhoodCount (occ : Finset (ℤ × ℤ)) (x y d : ℤ) : ℕ :=
  ((Finset.Icc (x - d) (x + d) ×ˢ Finset.Icc (y - d) (y + d)).filter
    (fun c => c ∈ occ)).card

/-- `too_crowded` (lines 46-54): `occ > crowding_max`. -/
def too_crowded (cfg : Config) (occ : Finset (ℤ × ℤ)) (nx ny : ℤ) : Bool :=
  decide (cfg.crowdingMax < (neighborhoodCount occ nx ny cfg.minDist : ℤ))

/-- The three `continue` filters of the candidate loop (lines 68-73): a
target cell survives iff it is in bounds, unoccupied, and not too crowded. -/
def isCandidate (cfg : Config) (occ : Finset (ℤ × ℤ)) (nx ny : ℤ) : Bool :=
  in_bounds cfg nx ny && !(decide ((nx, ny) ∈ occ)) && !(too_crowded cfg occ nx ny)

/-- The candidate list built by the loop over `moves` (lines 66-91),
projected to positions (the parallel `scores` list feeds only the
oracle-abstracted weighted choice). -/
def candidatesFor (cfg : Config) (occ : Finset (ℤ × ℤ)) (x y : ℤ) : List (ℤ × ℤ) :=
  (moves.filter (fun m => isCandidate cfg occ (x + m.1) (y + m.2))).map
    (fun m => (x + m.1, y + m.2))

/-- The seed cell (lines 34-35): `cx = grid_size // 2`,
`cy = int(grid_size * 0.85)`.  History entries are `(x, y)` pairs. -/
def seedCell (cfg : Config) : ℤ × ℤ :=
  ((cfg.gridSize / 2 : ℕ), (17 * cfg.gridSize / 20 : ℕ))

/-- Initial state (lines 34-39): seed cell marked, one tip, history seeded. -/
def initState (cfg : Config) : GrowState :=
  { occ := {seedCell cfg}, tips := [seedCell cfg], history := [seedCell cfg],
    ki := 0, kr := 0 }

/-- `i = rng.integers(0, len(tips))` (line 60): an index into the tip list. -/
def tipIndex (rng : Rng) (s : GrowState) : ℕ :=
  rng.ints s.ki % s.tips.length

/-- `x, y = tips[i]` (line 61). -/
def tipAt (rng : Rng) (s : GrowState) : ℤ × ℤ :=
  s.tips.getD (tipIndex rng s) (0, 0)

/-- The candidate list computed for the selected tip in the current step. -/
def stepCands (cfg : Config) (rng : Rng) (s : GrowState) : List (ℤ × ℤ) :=
  candidatesFor cfg s.occ (tipAt rng s).1 (tipAt rng s).2

/-- `rng.choice(len(candidates), p=p)` (line 102), oracle-abstracted to an
arbitrary in-range index (all softmax weights are positive). -/
def candIndex (cfg : Config) (rng : Rng) (s : GrowState) : ℕ :=
  rng.ints (s.ki + 1) % (stepCands cfg rng s).length

/-- `nx, ny = candidates[...]` (line 102). -/
def newCell (cfg : Config) (rng : Rng) (s : GrowState) : ℤ × ℤ :=
  (stepCands cfg rng s).getD (candIndex cfg rng s) (0, 0)

/-- The `rng.random()` draw of line 107; it follows one noise draw per
admitted candidate (line 81). -/
def branchCoin (cfg : Config) (rng : Rng) (s : GrowState) : ℚ :=
  rng.reals (s.kr + (stepCands cfg rng s).length)

/-- The `rng.random()` draw of line 112. -/
def deathCoin (cfg : Config) (rng : Rng) (s : GrowState) : ℚ :=
  rng.reals (s.kr + (stepCands cfg rng s).length + 1)

/-- Condition of line 107: `rng.random() < branch_rate and len(tips) < max_tips`. -/
def doBranch (cfg : Config) (rng : Rng) (s : GrowState) : Bool :=
  decide (branchCoin cfg rng s < cfg.branchRate) &&
  decide ((s.tips.length : ℤ) < cfg.maxTips)

/-- The tip-set update of lines 107-110: append a branch tip, or advance
tip `i` in place. -/
def branchedTips (cfg : Config) (rng : Rng) (s : GrowState) : List (ℤ × ℤ) :=
  if doBranch cfg rng s then s.tips ++ [newCell cfg rng s]
  else s.tips.set (tipIndex rng s) (newCell cfg rng s)

/-- Condition of line 112: `rng.random() < death_rate and len(tips) > 1`. -/
def doDeath (cfg : Config) (rng : Rng) (s : GrowState) : Bool :=
  decide (deathCoin cfg rng s < cfg.deathRate) &&
  decide (1 < (branchedTips cfg rng s).length)

/-- The tip-set update of lines 112-113: possibly pop a uniformly drawn tip. -/
def finalTips (cfg : Config) (rng : Rng) (s : GrowState) : List (ℤ × ℤ) :=
  if doDeath cfg rng s then
    (branchedTips cfg rng s).eraseIdx
      (rng.ints (s.ki + 2) % (branchedTips cfg rng s).length)
  else branchedTips cfg rng s

/-- One iteration of the growth loop body (lines 60-113), for a non-empty
tip list.  If no candidate is admitted the tip dies (lines 93-95);
otherwise the chosen cell is marked, appended to history, and the
branch/death updates are applied. -/
def runStep (cfg : Config) (rng : Rng) (s : GrowState) : GrowState :=
  if stepCands cfg rng s = [] then
    { s with tips := s.tips.eraseIdx (tipIndex rng s), ki := s.ki + 1 }
  else
    { occ := insert (newCell cfg rng s) s.occ,
      tips := finalTips cfg rng s,
      history := s.history ++ [newCell cfg rng s],
      ki := s.ki + (if doDeath cfg rng s then 3 else 2),
      kr := s.kr + (stepCands cfg rng s).length + 2 }

/-- The loop `for _ in range(n_steps)` with the `if not tips: break` test
(lines 56-58). -/
def runSteps (cfg : Config) (rng : Rng) : ℕ → GrowState → GrowState
  | 0, s => s
  | n + 1, s => if s.tips = [] then s else runSteps cfg rng n (runStep cfg rng s)

/-- `coral_realistic_growth` (lines 6-115): the returned history. -/
def coral_realistic_growth (cfg : Config) (rng : Rng) : List (ℤ × ℤ) :=
  (runSteps cfg rng cfg.nSteps.toNat (initState cfg)).history

/-! ### Basic lemmas about the embedded operations -/

theorem in_bounds_iff (cfg : Config) (x y : ℤ) :
    in_bounds cfg x y = true ↔
      cfg.minDist < x ∧ x < (cfg.gridSize : ℤ) - cfg.minDist ∧
      cfg.minDist < y ∧ y < (cfg.gridSize : ℤ) - cfg.minDist := by
  simp [in_bounds, and_assoc]

theorem isCandidate_iff (cfg : Config) (occ : Finset (ℤ × ℤ)) (nx ny : ℤ) :
    isCandidate cfg occ nx ny = true ↔
      (cfg.minDist < nx ∧ nx < (cfg.gridSize : ℤ) - cfg.minDist ∧
       cfg.minDist < ny ∧ ny < (cfg.gridSize : ℤ) - cfg.minDist) ∧
      (nx, ny) ∉ occ ∧
      (neighborhoodCount occ nx ny cfg.minDist : ℤ) ≤ cfg.crowdingMax := by
  simp [isCandidate, in_bounds_iff, too_crowded, not_lt, and_assoc]

theorem mem_candidatesFor_not_occ (cfg : Config) (occ : Finset (ℤ × ℤ)) (x y : ℤ)
    (c : ℤ × ℤ) (h : c ∈ candidatesFor cfg occ x y) : c ∉ occ := by
  simp only [candidatesFor, List.mem_map, List.mem_filter] at h
  obtain ⟨m, ⟨_, hc⟩, heq⟩ := h
  subst heq
  exact ((isCandidate_iff cfg occ _ _).mp hc).2.1

theorem getD_mem {α : Type} {l : List α} {n : ℕ} {d : α} (h : n < l.length) :
    l.getD n d ∈ l := by
  induction l generalizing n with
  | nil => simp at h
  | cons a t ih =>
    cases n with
    | zero => simp [List.getD]
    | succ k =>
      have : k < t.length := by simpa using h
      simpa [List.getD] using Or.inr (ih this)

theorem getD_append_left {α : Type} (l l' : List α) (d : α) (n : ℕ)
    (h : n < l.length) : (l ++ l').getD n d = l.getD n d := by
  induction l generalizing n with
  | nil => simp at h
  | cons a t ih =>
    cases n with
    | zero => simp [List.getD]
    | succ k =>
      have : k < t.length := by simpa using h
      simpa [List.getD] using ih k this

theorem length_eraseIdx_le {α : Type} (l : List α) (i : ℕ) :
    (l.eraseIdx i).length ≤ l.length := by
  induction l generalizing i with
  | nil => simp [List.eraseIdx]
  | cons a t ih =>
    cases i with
    | zero => simp [List.eraseIdx]
    | succ k =>
      simpa [List.eraseIdx] using ih k

theorem newCell_mem (cfg : Config) (rng : Rng) (s : GrowState)
    (h : stepCands cfg rng s ≠ []) : newCell cfg rng s ∈ stepCands cfg rng s := by
  have hlen : candIndex cfg rng s < (stepCands cfg rng s).length :=
    Nat.mod_lt _ (List.length_pos.mpr h)
  exact getD_mem hlen

theorem runStep_of_dead (cfg : Config) (rng : Rng) (s : GrowState)
    (h : stepCands cfg rng s = []) :
    runStep cfg rng s =
      { s with tips := s.tips.eraseIdx (tipIndex rng s), ki := s.ki + 1 } := by
  simp [runStep, h]

theorem runStep_of_alive (cfg : Config) (rng : Rng) (s : GrowState)
    (h : stepCands cfg rng s ≠ []) :
    runStep cfg rng s =
      { occ := insert (newCell cfg rng s) s.occ,
        tips := finalTips cfg rng s,
        history := s.history ++ [newCell cfg rng s],
        ki := s.ki + (if doDeath cfg rng s then 3 else 2),
        kr := s.kr + (stepCands cfg rng s).length + 2 } := by
  simp [runStep, h]

theorem runStep_occ_mono (cfg : Config) (rng : Rng) (s : GrowState) :
    s.occ ⊆ (runStep cfg rng s).occ := by
  by_cases h : stepCands cfg rng s = []
  · rw [runStep_of_dead cfg rng s h]
  · rw [runStep_of_alive cfg rng s h]
    exact Finset.subset_insert _ _

theorem runSteps_nil (cfg : Config) (rng : Rng) (n : ℕ) (s : GrowState)
    (h : s.tips = []) : runSteps cfg rng n s = s := by
  cases n <;> simp [runSteps, h]

theorem runSteps_succ (cfg : Config) (rng : Rng) (n : ℕ) (s : GrowState) :
    runSteps cfg rng (n + 1) s =
      if s.tips = [] then s else runSteps cfg rng n (runStep cfg rng s) := rfl

theorem runSteps_add (cfg : Config) (rng : Rng) :
    ∀ (a b : ℕ) (s : GrowState),
      runSteps cfg rng (a + b) s = runSteps cfg rng b (runSteps cfg rng a s) := by
  intro a
  induction a with
  | zero => intro b s; simp [runSteps, Nat.zero_add]
  | succ a ih =>
    intro b s
    have hab : a + 1 + b = (a + b) + 1 := by omega
    rw [hab, runSteps_succ, runSteps_succ]
    by_cases h : s.tips = []
    · simp [h, runSteps_nil cfg rng b s h]
    · simp [h, ih]

/-! ### Run-level invariants -/

theorem runSteps_occ_mono (cfg : Config) (rng : Rng) :
    ∀ (n : ℕ) (s : GrowState), s.occ ⊆ (runSteps cfg rng n s).occ := by
  intro n
  induction n with
  | zero => intro s; exact Finset.Subset.refl _
  | succ n ih =>
    intro s
    rw [runSteps_succ]
    by_cases h : s.tips = []
    · simp [h]
    · simp only [h, if_false]
      exact (runStep_occ_mono cfg rng s).trans (ih _)

/-- History/occupancy invariant: no duplicates, and every history entry is an
occupied cell. -/
def HistInv (s : GrowState) : Prop :=
  s.history.Nodup ∧ ∀ c ∈ s.history, c ∈ s.occ

theorem runStep_histInv (cfg : Config) (rng : Rng) (s : GrowState)
    (h : HistInv s) : HistInv (runStep cfg rng s) := by
  by_cases hc : stepCands cfg rng s = []
  · rw [runStep_of_dead cfg rng s hc]; exact h
  · rw [runStep_of_alive cfg rng s hc]
    obtain ⟨hnd, hmem⟩ := h
    have hnew : newCell cfg rng s ∉ s.occ :=
      mem_candidatesFor_not_occ cfg s.occ _ _ _ (newCell_mem cfg rng s hc)
    have hnot : newCell cfg rng s ∉ s.history := fun hin => hnew (hmem _ hin)
    constructor
    · simpa [List.nodup_append, hnd] using hnot
    · intro c hcmem
      rcases List.mem_append.mp hcmem with h1 | h2
      · exact Finset.mem_insert_of_mem (hmem _ h1)
      · simp only [List.mem_singleton] at h2
        subst h2
        exact Finset.mem_insert_self _ _

theorem runSteps_histInv (cfg : Config) (rng : Rng) :
    ∀ (n : ℕ) (s : GrowState), HistInv s → HistInv (runSteps cfg rng n s) := by
  intro n
  induction n with
  | zero => intro s h; exact h
  | succ n ih =>
    intro s h
    rw [runSteps_succ]
    by_cases he : s.tips = []
    · simpa [he] using h
    · simp only [he, if_false]
      exact ih _ (runStep_histInv cfg rng s h)

theorem runStep_hist_head (cfg : Config) (rng : Rng) (s : GrowState)
    (h : s.history ≠ []) :
    (runStep cfg rng s).history ≠ [] ∧
    (runStep cfg rng s).history.head? = s.history.head? := by
  by_cases hc : stepCands cfg rng s = []
  · rw [runStep_of_dead cfg rng s hc]; exact ⟨h, rfl⟩
  · rw [runStep_of_alive cfg rng s hc]
    refine ⟨by simp, ?_⟩
    obtain ⟨a, t, heq⟩ := List.exists_cons_of_ne_nil h
    show (s.history ++ [newCell cfg rng s]).head? = s.history.head?
    rw [heq]
    rfl

theorem runSteps_hist_head (cfg : Config) (rng : Rng) :
    ∀ (n : ℕ) (s : GrowState), s.history ≠ [] →
      (runSteps cfg rng n s).history ≠ [] ∧
      (runSteps cfg rng n s).history.head? = s.history.head? := by
  intro n
  induction n with
  | zero => intro s h; exact ⟨h, rfl⟩
  | succ n ih =>
    intro s h
    rw [runSteps_succ]
    by_cases he : s.tips = []
    · rw [if_pos he]
      exact ⟨h, rfl⟩
    · simp only [he, if_false]
      obtain ⟨h1, h2⟩ := runStep_hist_head cfg rng s h
      obtain ⟨h3, h4⟩ := ih (runStep cfg rng s) h1
      exact ⟨h3, h4.trans h2⟩

theorem runStep_hist_len (cfg : Config) (rng : Rng) (s : GrowState) :
    (runStep cfg rng s).history.length ≤ s.history.length + 1 := by
  by_cases hc : stepCands cfg rng s = []
  · rw [runStep_of_dead cfg rng s hc]
    exact Nat.le_succ _
  · rw [runStep_of_alive cfg rng s hc]
    simp

theorem runSteps_hist_len (cfg : Config) (rng : Rng) :
    ∀ (n : ℕ) (s : GrowState),
      (runSteps cfg rng n s).history.length ≤ s.history.length + n := by
  intro n
  induction n with
  | zero => intro s; exact Nat.le_refl _
  | succ n ih =>
    intro s
    rw [runSteps_succ]
    by_cases he : s.tips = []
    · simp [he]
    · simp only [he, if_false]
      have h1 := ih (runStep cfg rng s)
      have h2 := runStep_hist_len cfg rng s
      omega

theorem branchedTips_length_le (cfg : Config) (rng : Rng) (s : GrowState)
    (h : (s.tips.length : ℤ) ≤ cfg.maxTips) :
    ((branchedTips cfg rng s).length : ℤ) ≤ cfg.maxTips := by
  unfold branchedTips
  split
  · next hb =>
    have hlt : (s.tips.length : ℤ) < cfg.maxTips := by
      have := hb
      simp only [doBranch, Bool.and_eq_true, decide_eq_true_eq] at this
      exact this.2
    simp only [List.length_append, List.length_singleton]
    push_cast
    omega
  · simpa [List.length_set] using h

theorem finalTips_length_le (cfg : Config) (rng : Rng) (s : GrowState)
    (h : (s.tips.length : ℤ) ≤ cfg.maxTips) :
    ((finalTips cfg rng s).length : ℤ) ≤ cfg.maxTips := by
  unfold finalTips
  split
  · have h1 := length_eraseIdx_le (branchedTips cfg rng s)
      (rng.ints (s.ki + 2) % (branchedTips cfg rng s).length)
    have h2 := branchedTips_length_le cfg rng s h
    omega
  · exact branchedTips_length_le cfg rng s h

theorem runStep_tips_le (cfg : Config) (rng : Rng) (s : GrowState)
    (h : (s.tips.length : ℤ) ≤ cfg.maxTips) :
    ((runStep cfg rng s).tips.length : ℤ) ≤ cfg.maxTips := by
  by_cases hc : stepCands cfg rng s = []
  · rw [runStep_of_dead cfg rng s hc]
    have h1 := length_eraseIdx_le s.tips (tipIndex rng s)
    simp only []
    omega
  · rw [runStep_of_alive cfg rng s hc]
    exact finalTips_length_le cfg rng s h

theorem runSteps_tips_le (cfg : Config) (rng : Rng) :
    ∀ (n : ℕ) (s : GrowState), (s.tips.length : ℤ) ≤ cfg.maxTips →
      ((runSteps cfg rng n s).tips.length : ℤ) ≤ cfg.maxTips := by
  intro n
  induction n with
  | zero => intro s h; exact h
  | succ n ih =>
    intro s h
    rw [runSteps_succ]
    by_cases he : s.tips = []
    · simpa [he] using h
    · simp only [he, if_false]
      exact ih _ (runStep_tips_le cfg rng s h)

/-! ### The softmax sampler (lines 97-100), embedded over the reals -/

/-- `s.max()` (line 98): the maximum of a score list. -/
noncomputable def maxScore : List ℝ → ℝ
  | [] => 0
  | a :: t => t.foldr max a

theorem foldr_max_mem (t : List ℝ) : ∀ a : ℝ, t.foldr max a ∈ a :: t := by
  induction t with
  | nil => intro a; simp
  | cons b t' ih =>
    intro a
    simp only [List.foldr_cons]
    rcases max_choice b (t'.foldr max a) with h | h <;> rw [h]
    · simp
    · have := ih a
      simp only [List.mem_cons] at this ⊢
      tauto

theorem maxScore_mem (l : List ℝ) (h : l ≠ []) : maxScore l ∈ l := by
  cases l with
  | nil => exact absurd rfl h
  | cons a t => exact foldr_max_mem t a

/-- `p = np.exp((s - s.max()) * temperature)` (lines 98-99). -/
noncomputable def softmaxWeights (scores : List ℝ) (T : ℝ) : List ℝ :=
  scores.map (fun s => Real.exp ((s - maxScore scores) * T))

/-- `p /= p.sum()` (line 100): the categorical distribution handed to
`rng.choice`. -/
noncomputable def samplerProbs (scores : List ℝ) (T : ℝ) : List ℝ :=
  (softmaxWeights scores T).map (fun w => w / (softmaxWeights scores T).sum)

theorem sum_map_div (l : List ℝ) (c : ℝ) :
    (l.map (fun x => x / c)).sum = l.sum / c := by
  induction l with
  | nil => simp
  | cons a t ih => simp [ih, add_div]

/-! ### Concrete configurations and oracles used by witnesses -/

/-- A small valid configuration: 9×9 grid, one step, branching and death
switched off. -/
def cfgBase : Config :=
  { nSteps := 1, gridSize := 9, branchRate := 0, deathRate := 0 }

/-- A concrete oracle: all integer draws 0, all uniform draws 0. -/
def rng0 : Rng := { ints := fun _ => 0, reals := fun _ => 0 }

theorem rng0_valid : RngValid rng0 := by
  intro k
  constructor
  · exact le_refl 0
  · norm_num [rng0]

/-! ### Claim theorems -/

/-- C1: a neighbor `(x+dx, y+dy)` over the 8 offsets is admitted as a
candidate iff it is strictly inside the `minDist` margin, currently
unoccupied, and the occupied count in the radius-`minDist` window around it
is at most `crowdingMax`. -/
theorem candidate_admission (cfg : Config) (occ : Finset (ℤ × ℤ)) (x y dx dy : ℤ)
    (hm : (dx, dy) ∈ moves) :
    (x + dx, y + dy) ∈ candidatesFor cfg occ x y ↔
      (cfg.minDist < x + dx ∧ x + dx < (cfg.gridSize : ℤ) - cfg.minDist ∧
       cfg.minDist < y + dy ∧ y + dy < (cfg.gridSize : ℤ) - cfg.minDist) ∧
      (x + dx, y + dy) ∉ occ ∧
      (neighborhoodCount occ (x + dx) (y + dy) cfg.minDist : ℤ) ≤ cfg.crowdingMax := by
  rw [← isCandidate_iff]
  constructor
  · intro h
    simp only [candidatesFor, List.mem_map, List.mem_filter] at h
    obtain ⟨m, ⟨hmem, hcand⟩, heq⟩ := h
    have h1 : x + m.1 = x + dx := congrArg Prod.fst heq
    have h2 : y + m.2 = y + dy := congrArg Prod.snd heq
    have hm1 : m.1 = dx := by omega
    have hm2 : m.2 = dy := by omega
    rwa [hm1, hm2] at hcand
  · intro h
    simp only [candidatesFor, List.mem_map, List.mem_filter]
    exact ⟨(dx, dy), ⟨hm, h⟩, rfl⟩

/-- Witness for C1 at a concrete admitted neighbor. -/
theorem candidate_admission_witness :
    ((0 : ℤ), (-1 : ℤ)) ∈ moves ∧
    (((4 : ℤ) + 0, (7 : ℤ) + -1) ∈ candidatesFor cfgBase {((4 : ℤ), (7 : ℤ))} 4 7 ↔
      (cfgBase.minDist < 4 + 0 ∧ 4 + 0 < (cfgBase.gridSize : ℤ) - cfgBase.minDist ∧
       cfgBase.minDist < 7 + -1 ∧ 7 + -1 < (cfgBase.gridSize : ℤ) - cfgBase.minDist) ∧
      ((4 : ℤ) + 0, (7 : ℤ) + -1) ∉ ({((4 : ℤ), (7 : ℤ))} : Finset (ℤ × ℤ)) ∧
      (neighborhoodCount {((4 : ℤ), (7 : ℤ))} (4 + 0) (7 + -1) cfgBase.minDist : ℤ) ≤
        cfgBase.crowdingMax) :=
  ⟨by decide, candidate_admission cfgBase {((4 : ℤ), (7 : ℤ))} 4 7 0 (-1) (by decide)⟩

/-- C3: for every non-empty score list, the max-shifted exponential weights
have a non-zero sum (so the normalization never divides by zero), the
normalized probabilities sum to 1, and the weight of the maximal score,
`exp(0) = 1`, is always among the weights. -/
theorem softmax_sampler_safe (scores : List ℝ) (T : ℝ) (h : scores ≠ []) :
    (softmaxWeights scores T).sum ≠ 0 ∧
    (samplerProbs scores T).sum = 1 ∧
    (1 : ℝ) ∈ softmaxWeights scores T := by
  have hpos : ∀ w ∈ softmaxWeights scores T, 0 < w := by
    intro w hw
    simp only [softmaxWeights, List.mem_map] at hw
    obtain ⟨s, _, rfl⟩ := hw
    exact Real.exp_pos _
  have hne : softmaxWeights scores T ≠ [] := by
    simpa [softmaxWeights] using h
  have hsum : 0 < (softmaxWeights scores T).sum := List.sum_pos _ hpos hne
  refine ⟨ne_of_gt hsum, ?_, ?_⟩
  · rw [samplerProbs, sum_map_div, div_self (ne_of_gt hsum)]
  · have hmem : maxScore scores ∈ scores := maxScore_mem scores h
    simp only [softmaxWeights, List.mem_map]
    exact ⟨maxScore scores, hmem, by rw [sub_self, zero_mul, Real.exp_zero]⟩

/-- Witness for C3 on the singleton score list `[0]` at temperature 1. -/
theorem softmax_sampler_safe_witness :
    ([(0 : ℝ)] ≠ []) ∧
    ((softmaxWeights [(0 : ℝ)] 1).sum ≠ 0 ∧
     (samplerProbs [(0 : ℝ)] 1).sum = 1 ∧
     (1 : ℝ) ∈ softmaxWeights [(0 : ℝ)] 1) :=
  ⟨by simp, softmax_sampler_safe [(0 : ℝ)] 1 (by simp)⟩

/-- C8: occupancy is monotone: a cell occupied after `n` iterations is still
occupied after any `m ≥ n` iterations; no step clears an occupied cell. -/
theorem monotonic_occupancy (cfg : Config) (rng : Rng) (n m : ℕ) (h : n ≤ m) :
    (runSteps cfg rng n (initState cfg)).occ ⊆
    (runSteps cfg rng m (initState cfg)).occ := by
  obtain ⟨k, rfl⟩ := Nat.exists_eq_add_of_le h
  rw [runSteps_add]
  exact runSteps_occ_mono cfg rng k _

/-- Witness for C8 at a concrete configuration and step pair. -/
theorem monotonic_occupancy_witness :
    (1 : ℕ) ≤ 2 ∧
    (runSteps cfgBase rng0 1 (initState cfgBase)).occ ⊆
    (runSteps cfgBase rng0 2 (initState cfgBase)).occ :=
  ⟨by decide, monotonic_occupancy cfgBase rng0 1 2 (by decide)⟩

/-- C9: the run is a deterministic function of the configuration and the
seeded generator: two runs with the same configuration (hence the same seed,
and the same generator stream derived from it) return identical histories.
In the embedding the oracle `rngOf seed` is the single source of randomness;
the run reads nothing else. -/
theorem determinism (rngOf : ℤ → Rng) (cfg₁ cfg₂ : Config) (h : cfg₁ = cfg₂) :
    coral_realistic_growth cfg₁ (rngOf cfg₁.seed) =
    coral_realistic_growth cfg₂ (rngOf cfg₂.seed) := by
  rw [h]

/-- Witness for C9 at a concrete configuration. -/
theorem determinism_witness :
    cfgBase = cfgBase ∧
    coral_realistic_growth cfgBase ((fun _ => rng0) cfgBase.seed) =
    coral_realistic_growth cfgBase ((fun _ => rng0) cfgBase.seed) :=
  ⟨rfl, determinism (fun _ => rng0) cfgBase cfgBase rfl⟩

/-- C10: the returned history is never empty and its first element is the
seed `(gridSize / 2, ⌊gridSize * 0.85⌋)`; for any grid of side at least 3
this is not the grid center. -/
theorem seed_position (cfg : Config) (rng : Rng) :
    coral_realistic_growth cfg rng ≠ [] ∧
    (coral_realistic_growth cfg rng).head? =
      some (((cfg.gridSize / 2 : ℕ) : ℤ), ((17 * cfg.gridSize / 20 : ℕ) : ℤ)) ∧
    (3 ≤ cfg.gridSize → 17 * cfg.gridSize / 20 ≠ cfg.gridSize / 2) := by
  have h := runSteps_hist_head cfg rng cfg.nSteps.toNat (initState cfg)
    (by simp [initState])
  refine ⟨h.1, ?_, ?_⟩
  · show (runSteps cfg rng cfg.nSteps.toNat (initState cfg)).history.head? = _
    rw [h.2]
    rfl
  · intro hg
    omega

/-- Witness for C10 (its only hypothesis is the inner `3 ≤ gridSize`
implication, discharged at `gridSize = 9`). -/
theorem seed_position_witness :
    coral_realistic_growth cfgBase rng0 ≠ [] ∧
    (coral_realistic_growth cfgBase rng0).head? =
      some (((cfgBase.gridSize / 2 : ℕ) : ℤ), ((17 * cfgBase.gridSize / 20 : ℕ) : ℤ)) ∧
    (3 ≤ cfgBase.gridSize → 17 * cfgBase.gridSize / 20 ≠ cfgBase.gridSize / 2) :=
  seed_position cfgBase rng0

/-- C6: bounded growth: at every point of the run the history holds at most
one entry per elapsed iteration plus the seed, and the tip count never
exceeds `maxTips` (given `maxTips ≥ 1`); hence the returned history has
length at most `nSteps + 1`. -/
theorem bounded_growth (cfg : Config) (rng : Rng) (hmax : 1 ≤ cfg.maxTips) (n : ℕ) :
    (runSteps cfg rng n (initState cfg)).history.length ≤ n + 1 ∧
    ((runSteps cfg rng n (initState cfg)).tips.length : ℤ) ≤ cfg.maxTips ∧
    (0 ≤ cfg.nSteps → ((coral_realistic_growth cfg rng).length : ℤ) ≤ cfg.nSteps + 1) := by
  have hinit_t : (((initState cfg).tips.length : ℕ) : ℤ) ≤ cfg.maxTips := by
    simp only [initState, List.length_singleton]
    exact_mod_cast hmax
  refine ⟨?_, runSteps_tips_le cfg rng n _ hinit_t, ?_⟩
  · have h1 := runSteps_hist_len cfg rng n (initState cfg)
    have h2 : (initState cfg).history.length = 1 := rfl
    omega
  · intro h0
    have h1 := runSteps_hist_len cfg rng cfg.nSteps.toNat (initState cfg)
    have h2 : (initState cfg).history.length = 1 := rfl
    have h3 : (coral_realistic_growth cfg rng).length =
        (runSteps cfg rng cfg.nSteps.toNat (initState cfg)).history.length := rfl
    omega

/-- Witness for C6 at a concrete configuration and prefix length. -/
theorem bounded_growth_witness :
    (1 : ℤ) ≤ cfgBase.maxTips ∧
    ((runSteps cfgBase rng0 3 (initState cfgBase)).history.length ≤ 3 + 1 ∧
     ((runSteps cfgBase rng0 3 (initState cfgBase)).tips.length : ℤ) ≤ cfgBase.maxTips ∧
     (0 ≤ cfgBase.nSteps →
       ((coral_realistic_growth cfgBase rng0).length : ℤ) ≤ cfgBase.nSteps + 1)) :=
  ⟨by decide, bounded_growth cfgBase rng0 (by decide) 3⟩

/-- C7: every coordinate appears at most once in the returned history:
candidates are admitted only if unoccupied, are marked occupied exactly when
appended, and every history entry stays occupied. -/
theorem history_nodup (cfg : Config) (rng : Rng) :
    (coral_realistic_growth cfg rng).Nodup := by
  have hinit : HistInv (initState cfg) := by
    constructor
    · simp [initState]
    · intro c hc
      simp only [initState, List.mem_singleton] at hc
      subst hc
      simp [initState]
  exact (runSteps_histInv cfg rng cfg.nSteps.toNat (initState cfg) hinit).1

/-- C2 (amended): in a successful step, exactly one of the two tip-set
updates happens at the branch stage: if the branch coin succeeds and the tip
count is below `maxTips` the new cell is appended with tip `i` left in
place, otherwise tip `i` is replaced by the new cell; and with
`branchRate = 1`, `maxTips = 2`, a single tip, and the same-iteration death
draw switched off (`deathRate ≤ 0`), the step leaves exactly 2 tips. -/
theorem branch_or_advance (cfg : Config) (rng : Rng) (s : GrowState)
    (hv : RngValid rng) (ht : s.tips ≠ []) (hc : stepCands cfg rng s ≠ []) :
    ((branchCoin cfg rng s < cfg.branchRate ∧ (s.tips.length : ℤ) < cfg.maxTips →
        branchedTips cfg rng s = s.tips ++ [newCell cfg rng s] ∧
        (branchedTips cfg rng s).getD (tipIndex rng s) (0, 0) =
          s.tips.getD (tipIndex rng s) (0, 0)) ∧
     (¬ (branchCoin cfg rng s < cfg.branchRate ∧ (s.tips.length : ℤ) < cfg.maxTips) →
        branchedTips cfg rng s = s.tips.set (tipIndex rng s) (newCell cfg rng s))) ∧
    (cfg.branchRate = 1 ∧ cfg.maxTips = 2 ∧ cfg.deathRate ≤ 0 ∧ s.tips.length = 1 →
        (runStep cfg rng s).tips.length = 2) := by
  have hidx : tipIndex rng s < s.tips.length := Nat.mod_lt _ (List.length_pos.mpr ht)
  constructor
  · constructor
    · intro hb
      have hdb : doBranch cfg rng s = true := by
        simp [doBranch, hb.1, hb.2]
      rw [branchedTips, if_pos hdb]
      exact ⟨rfl, getD_append_left _ _ _ _ hidx⟩
    · intro hb
      have hdb : ¬ doBranch cfg rng s = true := by
        simp only [doBranch, Bool.and_eq_true, decide_eq_true_eq]
        exact hb
      rw [branchedTips, if_neg hdb]
  · rintro ⟨hbr, hmt, hdr, hlen⟩
    have hb : branchCoin cfg rng s < cfg.branchRate := by
      rw [hbr]
      exact (hv _).2
    have hm : (s.tips.length : ℤ) < cfg.maxTips := by
      rw [hmt, hlen]
      norm_num
    have hdb : doBranch cfg rng s = true := by
      simp [doBranch, hb, hm]
    have hbtlen : (branchedTips cfg rng s).length = 2 := by
      rw [branchedTips, if_pos hdb]
      simp [hlen]
    have hdd : ¬ doDeath cfg rng s = true := by
      have h0 : ¬ deathCoin cfg rng s < cfg.deathRate :=
        not_lt.mpr (hdr.trans (hv (s.kr + (stepCands cfg rng s).length + 1)).1)
      simp [doDeath, h0]
    rw [runStep_of_alive cfg rng s hc]
    show (finalTips cfg rng s).length = 2
    rw [finalTips, if_neg hdd]
    exact hbtlen

/-- A configuration forcing a branch: branch rate 1, tip cap 2. -/
def cfgBranch : Config := { cfgBase with branchRate := 1, maxTips := 2 }

/-- The scenario of C2 with a positive death rate (1, the top of the spec's
valid range [0,1]; any positive rate behaves the same once the death coin
falls below it, e.g. the default 0.002 with a coin draw of 0). -/
def cfgBranchDeath : Config :=
  { cfgBase with branchRate := 1, maxTips := 2, deathRate := 1 }

/-- Counterexample to C2's concrete scenario as frozen: with
`branchRate = 1`, `maxTips = 2`, `nSteps = 1` and a positive `deathRate`
(the scenario places no constraint on `deathRate`), the death check of
lines 112-113 runs in the same iteration and pops one of the two tips, so
after the one successful step (the history did grow to 2 entries) the tip
set has 1 member, not 2. -/
theorem branch_death_cex :
    cfgBranchDeath.branchRate = 1 ∧ cfgBranchDeath.maxTips = 2 ∧
    cfgBranchDeath.nSteps = 1 ∧ RngValid rng0 ∧
    stepCands cfgBranchDeath rng0 (initState cfgBranchDeath) ≠ [] ∧
    (coral_realistic_growth cfgBranchDeath rng0).length = 2 ∧
    (runSteps cfgBranchDeath rng0 1 (initState cfgBranchDeath)).tips.length = 1 :=
  ⟨rfl, rfl, rfl, rng0_valid, by decide, by decide, by decide⟩

/-- Witness for C2: a concrete successful step under `cfgBranch`. -/
theorem branch_or_advance_witness :
    RngValid rng0 ∧ (initState cfgBranch).tips ≠ [] ∧
    stepCands cfgBranch rng0 (initState cfgBranch) ≠ [] ∧
    (((branchCoin cfgBranch rng0 (initState cfgBranch) < cfgBranch.branchRate ∧
        ((initState cfgBranch).tips.length : ℤ) < cfgBranch.maxTips →
        branchedTips cfgBranch rng0 (initState cfgBranch) =
          (initState cfgBranch).tips ++ [newCell cfgBranch rng0 (initState cfgBranch)] ∧
        (branchedTips cfgBranch rng0 (initState cfgBranch)).getD
            (tipIndex rng0 (initState cfgBranch)) (0, 0) =
          (initState cfgBranch).tips.getD (tipIndex rng0 (initState cfgBranch)) (0, 0)) ∧
      (¬ (branchCoin cfgBranch rng0 (initState cfgBranch) < cfgBranch.branchRate ∧
          ((initState cfgBranch).tips.length : ℤ) < cfgBranch.maxTips) →
        branchedTips cfgBranch rng0 (initState cfgBranch) =
          (initState cfgBranch).tips.set (tipIndex rng0 (initState cfgBranch))
            (newCell cfgBranch rng0 (initState cfgBranch)))) ∧
     (cfgBranch.branchRate = 1 ∧ cfgBranch.maxTips = 2 ∧ cfgBranch.deathRate ≤ 0 ∧
        (initState cfgBranch).tips.length = 1 →
        (runStep cfgBranch rng0 (initState cfgBranch)).tips.length = 2)) :=
  ⟨rng0_valid, by decide, by decide,
    branch_or_advance cfgBranch rng0 (initState cfgBranch) rng0_valid
      (by decide) (by decide)⟩

/-- With gridSize 5 and minDist 2 the strict bounds `2 < v < 3` admit no
integer, so no target of any move is ever in bounds. -/
theorem grid5_no_candidates (cfg : Config) (h5 : cfg.gridSize = 5)
    (hd : cfg.minDist = 2) (occ : Finset (ℤ × ℤ)) (x y : ℤ) :
    candidatesFor cfg occ x y = [] := by
  rw [candidatesFor]
  have hf : moves.filter (fun m => isCandidate cfg occ (x + m.1) (y + m.2)) = [] := by
    rw [List.filter_eq_nil_iff]
    intro m _ hcand
    have hb := ((isCandidate_iff cfg occ _ _).mp hcand).1
    rw [h5, hd] at hb
    omega
  rw [hf]
  rfl

/-- The gridSize-5 configuration of C4. -/
def cfgGrid5 : Config := { cfgBase with gridSize := 5 }

/-- Counterexample to C4: at gridSize 5 and minDist 2 the returned history is
not `[(2, 2)]` (the seed sits at `(2, 4)`, 85% of the grid height). -/
theorem grid5_center_cex :
    cfgGrid5.gridSize = 5 ∧ cfgGrid5.minDist = 2 ∧
    coral_realistic_growth cfgGrid5 rng0 ≠ [((2 : ℤ), (2 : ℤ))] :=
  ⟨rfl, rfl, by decide⟩

/-- C4 (amended): with gridSize 5 and minDist 2 no offset from any tip passes
the bounds check, so the seed tip dies on the first iteration and the
returned history is exactly `[(2, 4)]` — the seed cell, horizontally centered
at 85% of the grid height — for every remaining parameter and oracle. -/
theorem grid5_history (cfg : Config) (rng : Rng) (h5 : cfg.gridSize = 5)
    (hd : cfg.minDist = 2) :
    coral_realistic_growth cfg rng = [((2 : ℤ), (4 : ℤ))] := by
  have hseed : (initState cfg).history = [((2 : ℤ), (4 : ℤ))] := by
    show [seedCell cfg] = _
    unfold seedCell
    rw [h5]
    decide
  unfold coral_realistic_growth
  cases hn : cfg.nSteps.toNat with
  | zero => exact hseed
  | succ n =>
    rw [runSteps_succ]
    have hne : (initState cfg).tips ≠ [] := by simp [initState]
    rw [if_neg hne]
    have hdead : stepCands cfg rng (initState cfg) = [] :=
      grid5_no_candidates cfg h5 hd _ _ _
    rw [runStep_of_dead cfg rng _ hdead]
    rw [runSteps_nil]
    · exact hseed
    · show (initState cfg).tips.eraseIdx (tipIndex rng (initState cfg)) = []
      have h0 : tipIndex rng (initState cfg) = 0 := by
        simp [tipIndex, initState, Nat.mod_one]
      rw [h0]
      rfl

/-- Witness for the amended C4 at a fully concrete configuration. -/
theorem grid5_history_witness :
    cfgGrid5.gridSize = 5 ∧ cfgGrid5.minDist = 2 ∧
    coral_realistic_growth cfgGrid5 rng0 = [((2 : ℤ), (4 : ℤ))] :=
  ⟨rfl, rfl, grid5_history cfgGrid5 rng0 rfl rfl⟩

/-- A configuration violating the `temperature > 0` constraint. -/
def cfgTempZero : Config := { cfgBase with temperature := 0 }

/-- Counterexample to C5: with `temperature = 0` (violating `> 0`) no error
is reported; a simulation step runs, marks a cell, and extends the history
beyond the seed entry. -/
theorem no_validation_cex :
    ¬ (0 : ℚ) < cfgTempZero.temperature ∧
    (coral_realistic_growth cfgTempZero rng0).length = 2 :=
  ⟨by decide, by decide⟩

/-- C5 (amended): the function performs no configuration validation and
reports no error; it is total on violating configurations and runs normally.
In particular a negative (or zero) `nSteps` just runs the loop body zero
times, returning exactly the seed history, and a non-positive temperature
does not stop simulation steps (see the counterexample). -/
theorem no_validation (cfg : Config) (rng : Rng) (h : cfg.nSteps ≤ 0) :
    coral_realistic_growth cfg rng = [seedCell cfg] := by
  unfold coral_realistic_growth
  rw [Int.toNat_of_nonpos h]
  rfl

/-- A configuration violating the `nSteps ≥ 0` constraint. -/
def cfgNegSteps : Config := { cfgBase with nSteps := -3 }

/-- Witness for the amended C5. -/
theorem no_validation_witness :
    cfgNegSteps.nSteps ≤ 0 ∧
    coral_realistic_growth cfgNegSteps rng0 = [seedCell cfgNegSteps] :=
  ⟨by decide, no_validation cfgNegSteps rng0 (by decide)⟩

end NaturaMorph
